import Mathlib

/-!
Verification of the octree compressor/decoder of the 3D-VTK backend
(`generate_octree.py`, `generate_point_octree.py`, `analyze_octree.py`).

The scalar samples of the volume are modelled as rationals.  The byte
stream is a `List Nat` of byte values; the 4-byte little-endian float
serialization performed by numpy (`dtype='<f4'`) is treated as an external
collaborator and modelled as a parameter `enc : ℚ → List Nat` producing the
4 payload bytes of a value.
-/

namespace Oct

/-- A dense 3D scalar volume: dimensions `(nx, ny, nz)` and a sample value at
every integer coordinate, mirroring the numpy array of shape `(nz, ny, nx)`
indexed as `data[z, y, x]`. -/
structure Volume where
  nx : Nat
  ny : Nat
  nz : Nat
  val : Nat → Nat → Nat → ℚ

/-- The flattened list of samples of the sub-region
`data[minz:minz+sz, miny:miny+sy, minx:minx+sx]` in numpy C order
(z outermost, x innermost).  Like numpy slicing, ranges are clipped to the
array bounds. -/
def regionVals (v : Volume) (mx my mz sx sy sz : Nat) : List ℚ :=
  (List.range' mz (min (mz + sz) v.nz - mz)).flatMap (fun z =>
    (List.range' my (min (my + sy) v.ny - my)).flatMap (fun y =>
      (List.range' mx (min (mx + sx) v.nx - mx)).map (fun x => v.val x y z)))

/-- Maximum of a list of rationals, as computed by `np.max` on a non-empty
array (the value on `[]` is an arbitrary default). -/
def listMax : List ℚ → ℚ
  | [] => 0
  | x :: xs => xs.foldl max x

/-- Minimum of a list of rationals, as computed by `np.min` on a non-empty
array (the value on `[]` is an arbitrary default). -/
def listMin : List ℚ → ℚ
  | [] => 0
  | x :: xs => xs.foldl min x

/-- Arithmetic mean of a list of rationals (`np.mean`). -/
def mean (l : List ℚ) : ℚ := l.sum / l.length

/-- Octree node of the block-value builder (`generate_octree.OctreeNode`):
a leaf holds one scalar value; an internal node owns exactly 8 children,
in the creation order of the builder's loop. -/
inductive OctreeNode where
  | leaf (value : ℚ)
  | internal (c0 c1 c2 c3 c4 c5 c6 c7 : OctreeNode)

/-- Whether a node is a leaf. -/
def OctreeNode.isLeaf : OctreeNode → Bool
  | .leaf _ => true
  | _ => false

/-- The children of a node, in creation order ( `[]` for a leaf). -/
def OctreeNode.childrenL : OctreeNode → List OctreeNode
  | .leaf _ => []
  | .internal c0 c1 c2 c3 c4 c5 c6 c7 => [c0, c1, c2, c3, c4, c5, c6, c7]

/-- Total node count of a tree. -/
def countNodes : OctreeNode → Nat
  | .leaf _ => 1
  | .internal c0 c1 c2 c3 c4 c5 c6 c7 =>
      1 + (countNodes c0 + countNodes c1 + countNodes c2 + countNodes c3 +
           countNodes c4 + countNodes c5 + countNodes c6 + countNodes c7)

/-- Leaf count of a tree. -/
def leafCount : OctreeNode → Nat
  | .leaf _ => 1
  | .internal c0 c1 c2 c3 c4 c5 c6 c7 =>
      leafCount c0 + leafCount c1 + leafCount c2 + leafCount c3 +
      leafCount c4 + leafCount c5 + leafCount c6 + leafCount c7

/-- Internal node count of a tree. -/
def internalCount : OctreeNode → Nat
  | .leaf _ => 0
  | .internal c0 c1 c2 c3 c4 c5 c6 c7 =>
      1 + (internalCount c0 + internalCount c1 + internalCount c2 + internalCount c3 +
           internalCount c4 + internalCount c5 + internalCount c6 + internalCount c7)

/-- The block-value octree builder, `generate_octree.OctreeNode.__init__`:
leaf when the region is at most a single voxel, or empty, or has value
fluctuation at most 50, or cannot be halved (`min(sx,sy,sz) < 2`);
otherwise 8 children with per-axis split `half = (dim + 1) / 2`, enumerated
with `dx` outermost and `dz` innermost. -/
def buildBlock (v : Volume) (mx my mz sx sy sz : Nat) : OctreeNode :=
  let vals := regionVals v mx my mz sx sy sz
  if sx ≤ 1 ∧ sy ≤ 1 ∧ sz ≤ 1 then
    OctreeNode.leaf (vals.headD 0)
  else if vals = [] then
    OctreeNode.leaf 0
  else if listMax vals - listMin vals ≤ 50 then
    OctreeNode.leaf (mean vals)
  else if h : min sx (min sy sz) < 2 then
    OctreeNode.leaf (mean vals)
  else
    OctreeNode.internal
      (buildBlock v mx my mz ((sx+1)/2) ((sy+1)/2) ((sz+1)/2))
      (buildBlock v mx my (mz + (sz+1)/2) ((sx+1)/2) ((sy+1)/2) (sz - (sz+1)/2))
      (buildBlock v mx (my + (sy+1)/2) mz ((sx+1)/2) (sy - (sy+1)/2) ((sz+1)/2))
      (buildBlock v mx (my + (sy+1)/2) (mz + (sz+1)/2) ((sx+1)/2) (sy - (sy+1)/2) (sz - (sz+1)/2))
      (buildBlock v (mx + (sx+1)/2) my mz (sx - (sx+1)/2) ((sy+1)/2) ((sz+1)/2))
      (buildBlock v (mx + (sx+1)/2) my (mz + (sz+1)/2) (sx - (sx+1)/2) ((sy+1)/2) (sz - (sz+1)/2))
      (buildBlock v (mx + (sx+1)/2) (my + (sy+1)/2) mz (sx - (sx+1)/2) (sy - (sy+1)/2) ((sz+1)/2))
      (buildBlock v (mx + (sx+1)/2) (my + (sy+1)/2) (mz + (sz+1)/2) (sx - (sx+1)/2) (sy - (sy+1)/2) (sz - (sz+1)/2))
termination_by sx + sy + sz
decreasing_by all_goals omega

/-- Serialization of a block tree, `OctreeNode.save`: a leaf writes tag byte
0 then the 4 payload bytes of its value; an internal node writes tag byte 1
then its 8 children in creation order. -/
def blockBytes (enc : ℚ → List Nat) : OctreeNode → List Nat
  | .leaf value => 0 :: enc value
  | .internal c0 c1 c2 c3 c4 c5 c6 c7 =>
      1 :: (blockBytes enc c0 ++ blockBytes enc c1 ++ blockBytes enc c2 ++ blockBytes enc c3 ++
            blockBytes enc c4 ++ blockBytes enc c5 ++ blockBytes enc c6 ++ blockBytes enc c7)

/-- The 4 bytes of a `uint32` little-endian value (`dtype='<u4'`). -/
def u32le (n : Nat) : List Nat :=
  [n % 256, n / 256 % 256, n / 65536 % 256, n / 16777216 % 256]

/-- Read a `uint32` little-endian value at offset `i` of a byte list
(`struct.unpack` of `<I`). -/
def readU32 (l : List Nat) (i : Nat) : Nat :=
  l.getD i 0 + 256 * l.getD (i+1) 0 + 65536 * l.getD (i+2) 0 + 16777216 * l.getD (i+3) 0

/-- An axis-aligned region: origin and size per axis. -/
structure Reg where
  minx : Nat
  miny : Nat
  minz : Nat
  sx : Nat
  sy : Nat
  sz : Nat

/-- The size triple of a region. -/
def Reg.size (r : Reg) : Nat × Nat × Nat := (r.sx, r.sy, r.sz)

/-- Membership of a coordinate in a region. -/
def Reg.contains (r : Reg) (x y z : Nat) : Prop :=
  r.minx ≤ x ∧ x < r.minx + r.sx ∧ r.miny ≤ y ∧ y < r.miny + r.sy ∧
  r.minz ≤ z ∧ z < r.minz + r.sz

instance (r : Reg) (x y z : Nat) : Decidable (r.contains x y z) := by
  unfold Reg.contains; infer_instance

/-- Voxel count of a region. -/
def Reg.vol (r : Reg) : Nat := r.sx * r.sy * r.sz

/-- The 8 child regions the block-value builder recurses on, in its creation
order: `dx` outermost, `dy` middle, `dz` innermost; low child of an axis has
size `(dim+1)/2`, high child the remainder. -/
def blockChildRegions (r : Reg) : List Reg :=
  let hx := (r.sx + 1) / 2
  let hy := (r.sy + 1) / 2
  let hz := (r.sz + 1) / 2
  [⟨r.minx, r.miny, r.minz, hx, hy, hz⟩,
   ⟨r.minx, r.miny, r.minz + hz, hx, hy, r.sz - hz⟩,
   ⟨r.minx, r.miny + hy, r.minz, hx, r.sy - hy, hz⟩,
   ⟨r.minx, r.miny + hy, r.minz + hz, hx, r.sy - hy, r.sz - hz⟩,
   ⟨r.minx + hx, r.miny, r.minz, r.sx - hx, hy, hz⟩,
   ⟨r.minx + hx, r.miny, r.minz + hz, r.sx - hx, hy, r.sz - hz⟩,
   ⟨r.minx + hx, r.miny + hy, r.minz, r.sx - hx, r.sy - hy, hz⟩,
   ⟨r.minx + hx, r.miny + hy, r.minz + hz, r.sx - hx, r.sy - hy, r.sz - hz⟩]

/-- The 8 child regions the point-sample builder recurses on, in its
creation order: `dz` outermost, `dy` middle, `dx` innermost. -/
def pointChildRegions (r : Reg) : List Reg :=
  let hx := (r.sx + 1) / 2
  let hy := (r.sy + 1) / 2
  let hz := (r.sz + 1) / 2
  [⟨r.minx, r.miny, r.minz, hx, hy, hz⟩,
   ⟨r.minx + hx, r.miny, r.minz, r.sx - hx, hy, hz⟩,
   ⟨r.minx, r.miny + hy, r.minz, hx, r.sy - hy, hz⟩,
   ⟨r.minx + hx, r.miny + hy, r.minz, r.sx - hx, r.sy - hy, hz⟩,
   ⟨r.minx, r.miny, r.minz + hz, hx, hy, r.sz - hz⟩,
   ⟨r.minx + hx, r.miny, r.minz + hz, r.sx - hx, hy, r.sz - hz⟩,
   ⟨r.minx, r.miny + hy, r.minz + hz, hx, r.sy - hy, r.sz - hz⟩,
   ⟨r.minx + hx, r.miny + hy, r.minz + hz, r.sx - hx, r.sy - hy, r.sz - hz⟩]

/-- The 8 child size triples derived by the detailed decoder
(`detailed_octree_analysis.parse_node_detailed`, the `child_sizes` list). -/
def detailedChildSizes (sx sy sz : Nat) : List (Nat × Nat × Nat) :=
  let hx := (sx + 1) / 2
  let hy := (sy + 1) / 2
  let hz := (sz + 1) / 2
  [(hx, hy, hz),
   (hx, hy, sz - hz),
   (hx, sy - hy, hz),
   (hx, sy - hy, sz - hz),
   (sx - hx, hy, hz),
   (sx - hx, hy, sz - hz),
   (sx - hx, sy - hy, hz),
   (sx - hx, sy - hy, sz - hz)]

/-- Octree node of the point-sample builder
(`generate_point_octree.PointOctreeNode`): a leaf holds one scalar value and
the integer coordinate of its representative sample point. -/
inductive PointNode where
  | leaf (value : ℚ) (px py pz : Nat)
  | internal (c0 c1 c2 c3 c4 c5 c6 c7 : PointNode)

/-- Whether a point node is a leaf. -/
def PointNode.isLeaf : PointNode → Bool
  | .leaf _ _ _ _ => true
  | _ => false

/-- The children of a point node, in creation order. -/
def PointNode.childrenL : PointNode → List PointNode
  | .leaf _ _ _ _ => []
  | .internal c0 c1 c2 c3 c4 c5 c6 c7 => [c0, c1, c2, c3, c4, c5, c6, c7]

/-- Depth of a point tree in edges (a leaf has depth 0). -/
def pointDepth : PointNode → Nat
  | .leaf _ _ _ _ => 0
  | .internal c0 c1 c2 c3 c4 c5 c6 c7 =>
      1 + (((((((pointDepth c0).max (pointDepth c1)).max (pointDepth c2)).max
        (pointDepth c3)).max ((pointDepth c4).max (pointDepth c5))).max
        (pointDepth c6)).max (pointDepth c7))

/-- Depth of a block tree in edges (a leaf has depth 0). -/
def blockDepth : OctreeNode → Nat
  | .leaf _ => 0
  | .internal c0 c1 c2 c3 c4 c5 c6 c7 =>
      1 + (((((((blockDepth c0).max (blockDepth c1)).max (blockDepth c2)).max
        (blockDepth c3)).max ((blockDepth c4).max (blockDepth c5))).max
        (blockDepth c6)).max (blockDepth c7))

/-- The point-sample octree builder,
`generate_point_octree.PointOctreeNode.__init__`: a leaf is forced when the
depth cap is reached or some size is at most 1 (value = the sample at the
region center if the center lies inside the volume, else 0), when the region
is empty (value 0), or when the fluctuation is at most 50 or the region
cannot be halved (value = center sample if inside the volume, else the mean
of the region, or 0 if empty); otherwise 8 children with the same halving
rule as the block builder, enumerated with `dz` outermost and `dx`
innermost, at depth `curDepth + 1`. -/
def buildPoint (v : Volume) (mx my mz sx sy sz maxDepth curDepth : Nat) : PointNode :=
  if curDepth ≥ maxDepth ∨ min sx (min sy sz) ≤ 1 then
    PointNode.leaf
      (if mx + sx/2 < v.nx ∧ my + sy/2 < v.ny ∧ mz + sz/2 < v.nz then
        v.val (mx + sx/2) (my + sy/2) (mz + sz/2) else 0)
      (mx + sx/2) (my + sy/2) (mz + sz/2)
  else
    let vals := regionVals v mx my mz sx sy sz
    if vals = [] then
      PointNode.leaf 0 (mx + sx/2) (my + sy/2) (mz + sz/2)
    else if listMax vals - listMin vals ≤ 50 then
      PointNode.leaf
        (if mx + sx/2 < v.nx ∧ my + sy/2 < v.ny ∧ mz + sz/2 < v.nz then
          v.val (mx + sx/2) (my + sy/2) (mz + sz/2)
        else if vals = [] then 0 else mean vals)
        (mx + sx/2) (my + sy/2) (mz + sz/2)
    else if h : min sx (min sy sz) < 2 then
      PointNode.leaf
        (if mx + sx/2 < v.nx ∧ my + sy/2 < v.ny ∧ mz + sz/2 < v.nz then
          v.val (mx + sx/2) (my + sy/2) (mz + sz/2)
        else if vals = [] then 0 else mean vals)
        (mx + sx/2) (my + sy/2) (mz + sz/2)
    else
      PointNode.internal
        (buildPoint v mx my mz ((sx+1)/2) ((sy+1)/2) ((sz+1)/2) maxDepth (curDepth+1))
        (buildPoint v (mx + (sx+1)/2) my mz (sx - (sx+1)/2) ((sy+1)/2) ((sz+1)/2) maxDepth (curDepth+1))
        (buildPoint v mx (my + (sy+1)/2) mz ((sx+1)/2) (sy - (sy+1)/2) ((sz+1)/2) maxDepth (curDepth+1))
        (buildPoint v (mx + (sx+1)/2) (my + (sy+1)/2) mz (sx - (sx+1)/2) (sy - (sy+1)/2) ((sz+1)/2) maxDepth (curDepth+1))
        (buildPoint v mx my (mz + (sz+1)/2) ((sx+1)/2) ((sy+1)/2) (sz - (sz+1)/2) maxDepth (curDepth+1))
        (buildPoint v (mx + (sx+1)/2) my (mz + (sz+1)/2) (sx - (sx+1)/2) ((sy+1)/2) (sz - (sz+1)/2) maxDepth (curDepth+1))
        (buildPoint v mx (my + (sy+1)/2) (mz + (sz+1)/2) ((sx+1)/2) (sy - (sy+1)/2) (sz - (sz+1)/2) maxDepth (curDepth+1))
        (buildPoint v (mx + (sx+1)/2) (my + (sy+1)/2) (mz + (sz+1)/2) (sx - (sx+1)/2) (sy - (sy+1)/2) (sz - (sz+1)/2) maxDepth (curDepth+1))
termination_by sx + sy + sz
decreasing_by all_goals omega

/-- Serialization of a point tree, `PointOctreeNode.save`: a leaf writes tag
byte 0 then the 4 payload bytes of its value and 4 payload bytes for each of
the three coordinates; an internal node writes tag byte 1 then its 8
children in creation order. -/
def pointBytes (enc : ℚ → List Nat) : PointNode → List Nat
  | .leaf value px py pz =>
      0 :: (enc value ++ enc (px : ℚ) ++ enc (py : ℚ) ++ enc (pz : ℚ))
  | .internal c0 c1 c2 c3 c4 c5 c6 c7 =>
      1 :: (pointBytes enc c0 ++ pointBytes enc c1 ++ pointBytes enc c2 ++ pointBytes enc c3 ++
            pointBytes enc c4 ++ pointBytes enc c5 ++ pointBytes enc c6 ++ pointBytes enc c7)

mutual

/-- Fast-mode node parse, `count_octree_points.parse_node`: read a tag byte
(failure at end of stream); tag 0 reads a 4-byte payload (failure if fewer
than 4 bytes remain) and counts a leaf; any other tag counts an internal
node and parses 8 children, aborting on the first failing child.  Returns
the `(total, leaves, internals)` contribution and the unread remainder of
the stream. -/
def parseNodeFastAux : (s : List Nat) → Option ((Nat × Nat × Nat) × {r : List Nat // r.length < s.length})
  | [] => none
  | t :: rest =>
    if t = 0 then
      if h : 4 ≤ rest.length then
        some ((1, 1, 0), ⟨rest.drop 4, by simp; omega⟩)
      else none
    else
      match parseChildrenFastAux 8 rest with
      | none => none
      | some ((tot, lv, itn), ⟨r, hr⟩) =>
          some ((tot + 1, lv, itn + 1), ⟨r, by simp; omega⟩)
termination_by s => 10 * s.length

/-- The `for _ in range(8)` loop of `count_octree_points.parse_node`:
parse `n` consecutive nodes, aborting on the first failure, and sum their
contributions. -/
def parseChildrenFastAux : (n : Nat) → (s : List Nat) → Option ((Nat × Nat × Nat) × {r : List Nat // r.length ≤ s.length})
  | 0, s => some ((0, 0, 0), ⟨s, Nat.le_refl _⟩)
  | n + 1, s =>
    match parseNodeFastAux s with
    | none => none
    | some ((t1, l1, i1), ⟨r1, h1⟩) =>
      match parseChildrenFastAux n r1 with
      | none => none
      | some ((t2, l2, i2), ⟨r2, h2⟩) =>
          some ((t1 + t2, l1 + l2, i1 + i2), ⟨r2, by omega⟩)
termination_by n s => 10 * s.length + n

end

/-- Fast-mode node parse with the remainder stream stripped of its length
bound. -/
def parseNodeFast (s : List Nat) : Option ((Nat × Nat × Nat) × List Nat) :=
  match parseNodeFastAux s with
  | none => none
  | some (st, r) => some (st, r.1)

/-- Fast-mode children loop with the remainder stream stripped of its
length bound. -/
def parseChildrenFast (n : Nat) (s : List Nat) : Option ((Nat × Nat × Nat) × List Nat) :=
  match parseChildrenFastAux n s with
  | none => none
  | some (st, r) => some (st, r.1)

/-- Top level of `count_octree_points`: read the 12-byte header (failure if
the file is shorter), then parse the root node; on success report
`(total_voxels, total, leaves, internals, compression_ratio)`. -/
def countOctreePoints (bytes : List Nat) : Option (Nat × Nat × Nat × Nat × ℚ) :=
  if bytes.length < 12 then none
  else
    let nx := readU32 bytes 0
    let ny := readU32 bytes 4
    let nz := readU32 bytes 8
    match parseNodeFast (bytes.drop 12) with
    | none => none
    | some ((tot, lv, itn), _) =>
        some (nx * ny * nz, tot, lv, itn, ((nx * ny * nz : Nat) : ℚ) / (tot : ℚ))

mutual

/-- Detailed-mode node parse,
`detailed_octree_analysis.parse_node_detailed`: at end of stream it returns
a zero contribution (it does not fail); tag 0 skips up to 4 payload bytes
without checking their presence and contributes the region's voxel count
and one leaf; any other tag derives the 8 child size triples by the halving
rule and parses the children in the `child_sizes` order.  Returns
`(voxels, leaves, internals)` and the unread remainder.  The per-level
statistics table of the source is not modelled. -/
def parseDetailedAux : (sx : Nat) → (sy : Nat) → (sz : Nat) → (lvl : Nat) → (s : List Nat) → ((Nat × Nat × Nat) × {r : List Nat // r.length ≤ s.length})
  | _, _, _, _, [] => ((0, 0, 0), ⟨[], Nat.le_refl _⟩)
  | sx, sy, sz, lvl, t :: rest =>
    if t = 0 then
      ((sx * sy * sz, 1, 0), ⟨rest.drop 4, by simp; omega⟩)
    else
      match parseDetailedKids (detailedChildSizes sx sy sz) (lvl + 1) rest with
      | ((vox, lv, itn), ⟨r, hr⟩) => ((vox, lv, itn + 1), ⟨r, by simp; omega⟩)
termination_by _ _ _ _ s => 10 * s.length
decreasing_by all_goals (simp [detailedChildSizes]; omega)

/-- The loop over `child_sizes` in
`detailed_octree_analysis.parse_node_detailed`: parse one node per size
triple and sum the contributions. -/
def parseDetailedKids : (sizes : List (Nat × Nat × Nat)) → (lvl : Nat) → (s : List Nat) → ((Nat × Nat × Nat) × {r : List Nat // r.length ≤ s.length})
  | [], _, s => ((0, 0, 0), ⟨s, Nat.le_refl _⟩)
  | (cx, cy, cz) :: sizes, lvl, s =>
    match parseDetailedAux cx cy cz lvl s with
    | ((v1, l1, i1), ⟨r1, h1⟩) =>
      match parseDetailedKids sizes lvl r1 with
      | ((v2, l2, i2), ⟨r2, h2⟩) =>
          ((v1 + v2, l1 + l2, i1 + i2), ⟨r2, by omega⟩)
termination_by sizes _ s => 10 * s.length + sizes.length

end

/-- Detailed-mode node parse with the remainder stream stripped of its
length bound. -/
def parseDetailed (sx sy sz lvl : Nat) (s : List Nat) : (Nat × Nat × Nat) × List Nat :=
  ((parseDetailedAux sx sy sz lvl s).1, (parseDetailedAux sx sy sz lvl s).2.1)

/-- Top level of `detailed_octree_analysis`: read the 12-byte header
(failure if the file is shorter), then parse the root with the
header-declared sizes at level 0 and report
`(total_voxels_counted, total_leaves, total_internals)`. -/
def detailedOctreeAnalysis (bytes : List Nat) : Option (Nat × Nat × Nat) :=
  if bytes.length < 12 then none
  else some (parseDetailed (readU32 bytes 0) (readU32 bytes 4) (readU32 bytes 8) 0 (bytes.drop 12)).1

/-- The volume read by `generate_octree.main`: the file's flat list of
scalars reshaped C-style to shape `(nz, ny, nx)`, so `data[z, y, x]` is
element `z * ny * nx + y * nx + x`. -/
def volumeOfList (nx ny nz : Nat) (fileData : List ℚ) : Volume :=
  ⟨nx, ny, nz, fun x y z => fileData.getD (z * (ny * nx) + y * nx + x) 0⟩

/-- The `main` of `generate_octree.py` with its hard-coded dimension
constants lifted to parameters (the spec treats the dimensions as
configuration): reshaping the file data raises before any node is built
when the file length disagrees with `nx*ny*nz` (modelled as `none`);
otherwise the octree is built from the full-volume region and the output
stream is the 12-byte header followed by the serialized root. -/
def generateOctreeMain (enc : ℚ → List Nat) (nx ny nz : Nat) (fileData : List ℚ) : Option (List Nat) :=
  if fileData.length = nx * ny * nz then
    some (u32le nx ++ u32le ny ++ u32le nz ++
      blockBytes enc (buildBlock (volumeOfList nx ny nz fileData) 0 0 0 nx ny nz))
  else none

/-- The stored sample position of a point leaf (junk default on internal
nodes, which store no position). -/
def pointPos : PointNode → Nat × Nat × Nat
  | .leaf _ px py pz => (px, py, pz)
  | .internal _ _ _ _ _ _ _ _ => (0, 0, 0)

/-- The stored scalar value of a point leaf (junk default on internal
nodes, which store no value). -/
def pointVal : PointNode → ℚ
  | .leaf value _ _ _ => value
  | .internal _ _ _ _ _ _ _ _ => 0

/-- A concrete 4-byte payload encoder used to instantiate `enc` in witnesses
and counterexamples. -/
def encZero : ℚ → List Nat := fun _ => [0, 0, 0, 0]

/-- A 4×1×1 volume of constant value 9, used as a concrete input. -/
def volC6 : Volume := ⟨4, 1, 1, fun _ _ _ => 9⟩

/-!  Theorems.  -/

theorem parseNodeFast_nil : parseNodeFast [] = none := by
  simp [parseNodeFast, parseNodeFastAux]

theorem parseNodeFast_cons_zero (b : List Nat) :
    parseNodeFast (0 :: b) =
      if 4 ≤ b.length then some ((1, 1, 0), b.drop 4) else none := by
  unfold parseNodeFast parseNodeFastAux
  by_cases h : 4 ≤ b.length <;> simp [h]

theorem parseNodeFast_cons_ne {t : Nat} (ht : t ≠ 0) (rest : List Nat) :
    parseNodeFast (t :: rest) =
      match parseChildrenFast 8 rest with
      | none => none
      | some ((tot, lv, itn), r) => some ((tot + 1, lv, itn + 1), r) := by
  unfold parseNodeFast parseChildrenFast parseNodeFastAux
  cases h : parseChildrenFastAux 8 rest with
  | none => simp [ht, h]
  | some p =>
      obtain ⟨⟨tot, lv, itn⟩, ⟨r, hr⟩⟩ := p
      simp [ht, h]

theorem parseChildrenFast_zero (s : List Nat) :
    parseChildrenFast 0 s = some ((0, 0, 0), s) := by
  simp [parseChildrenFast, parseChildrenFastAux]

theorem parseNodeFast_consumes {s : List Nat} {st : Nat × Nat × Nat} {r : List Nat}
    (h : parseNodeFast s = some (st, r)) : r.length < s.length := by
  unfold parseNodeFast at h
  cases he : parseNodeFastAux s with
  | none => rw [he] at h; exact absurd h (by simp)
  | some p =>
      obtain ⟨st', ⟨r', hr'⟩⟩ := p
      rw [he] at h
      simp only [Option.some.injEq, Prod.mk.injEq] at h
      obtain ⟨-, h2⟩ := h
      exact h2 ▸ hr'

theorem parseChildrenFast_succ (n : Nat) (s : List Nat) :
    parseChildrenFast (n + 1) s =
      match parseNodeFast s with
      | none => none
      | some (a, r1) =>
        match parseChildrenFast n r1 with
        | none => none
        | some (b, r2) => some ((a.1 + b.1, a.2.1 + b.2.1, a.2.2 + b.2.2), r2) := by
  cases he : parseNodeFastAux s with
  | none =>
      unfold parseChildrenFast parseNodeFast
      simp only [parseChildrenFastAux, he]
  | some p =>
      obtain ⟨⟨t1, l1, i1⟩, ⟨r1, h1⟩⟩ := p
      cases he2 : parseChildrenFastAux n r1 with
      | none =>
          unfold parseChildrenFast parseNodeFast
          simp only [parseChildrenFastAux, he, he2]
      | some q =>
          obtain ⟨⟨t2, l2, i2⟩, ⟨r2, h2⟩⟩ := q
          unfold parseChildrenFast parseNodeFast
          simp only [parseChildrenFastAux, he, he2]

theorem parse_blockBytes (enc : ℚ → List Nat) (henc : ∀ q, (enc q).length = 4) :
    ∀ (t : OctreeNode) (rest : List Nat),
      parseNodeFast (blockBytes enc t ++ rest) =
        some ((countNodes t, leafCount t, internalCount t), rest) := by
  intro t
  induction t with
  | leaf value =>
      intro rest
      have h4 : (enc value).length = 4 := henc value
      have hd : (enc value ++ rest).drop 4 = rest := by
        rw [← h4]; exact List.drop_left _ _
      simp only [blockBytes, List.cons_append]
      rw [parseNodeFast_cons_zero, if_pos (by simp [h4])]
      simp [hd, countNodes, leafCount, internalCount]
  | internal c0 c1 c2 c3 c4 c5 c6 c7 ih0 ih1 ih2 ih3 ih4 ih5 ih6 ih7 =>
      intro rest
      simp only [blockBytes, List.cons_append, List.append_assoc]
      rw [parseNodeFast_cons_ne (by norm_num)]
      simp only [parseChildrenFast_succ, parseChildrenFast_zero,
        ih0, ih1, ih2, ih3, ih4, ih5, ih6, ih7]
      simp only [Option.some.injEq, Prod.mk.injEq, countNodes, leafCount, internalCount]
      ring_nf
      simp

theorem parseFrame_all : ∀ k : Nat,
    (∀ s st r, 10 * s.length ≤ k → parseNodeFast s = some (st, r) →
      ∃ c, s = c ++ r ∧ ∀ X, parseNodeFast (c ++ X) = some (st, X)) ∧
    (∀ n s st r, 10 * s.length + n ≤ k → parseChildrenFast n s = some (st, r) →
      ∃ c, s = c ++ r ∧ ∀ X, parseChildrenFast n (c ++ X) = some (st, X)) := by
  intro k
  induction k using Nat.strong_induction_on with
  | _ k IH =>
    constructor
    · intro s st r hk hp
      match s with
      | [] => rw [parseNodeFast_nil] at hp; exact absurd hp (by simp)
      | t :: rest =>
        by_cases ht : t = 0
        · subst ht
          rw [parseNodeFast_cons_zero] at hp
          by_cases h4 : 4 ≤ rest.length
          · rw [if_pos h4] at hp
            simp only [Option.some.injEq, Prod.mk.injEq] at hp
            obtain ⟨h1, h2⟩ := hp
            have hlen : (rest.take 4).length = 4 := by
              simp only [List.length_take]; omega
            refine ⟨0 :: rest.take 4, ?_, ?_⟩
            · rw [← h2]; simp [List.take_append_drop]
            · intro X
              rw [List.cons_append, parseNodeFast_cons_zero,
                if_pos (by simp [hlen])]
              have hdX : (rest.take 4 ++ X).drop 4 = X := by
                have hdl := List.drop_left (rest.take 4) X
                rwa [hlen] at hdl
              rw [hdX, ← h1]
          · rw [if_neg h4] at hp; exact absurd hp (by simp)
        · rw [parseNodeFast_cons_ne ht] at hp
          cases hc : parseChildrenFast 8 rest with
          | none => rw [hc] at hp; exact absurd hp (by simp)
          | some q =>
            obtain ⟨⟨tot, lv, itn⟩, r'⟩ := q
            rw [hc] at hp
            simp only [Option.some.injEq, Prod.mk.injEq] at hp
            obtain ⟨h1, h2⟩ := hp
            have hklt : 10 * rest.length + 8 < k := by
              simp only [List.length_cons] at hk; omega
            obtain ⟨c, hcr, hframe⟩ :=
              (IH (10 * rest.length + 8) hklt).2 8 rest _ _ le_rfl hc
            refine ⟨t :: c, ?_, ?_⟩
            · rw [← h2]; rw [hcr, List.cons_append]
            · intro X
              rw [List.cons_append, parseNodeFast_cons_ne ht, hframe X, ← h1]
    · intro n s st r hk hp
      match n with
      | 0 =>
        rw [parseChildrenFast_zero] at hp
        simp only [Option.some.injEq, Prod.mk.injEq] at hp
        obtain ⟨h1, h2⟩ := hp
        refine ⟨[], by simp [h2], fun X => ?_⟩
        rw [List.nil_append, parseChildrenFast_zero, h1]
      | n + 1 =>
        rw [parseChildrenFast_succ] at hp
        cases hn : parseNodeFast s with
        | none => rw [hn] at hp; exact absurd hp (by simp)
        | some p =>
          obtain ⟨a, r1⟩ := p
          simp only [hn] at hp
          cases hcn : parseChildrenFast n r1 with
          | none => rw [hcn] at hp; exact absurd hp (by simp)
          | some q =>
            obtain ⟨b, r2⟩ := q
            simp only [hcn, Option.some.injEq, Prod.mk.injEq] at hp
            obtain ⟨h1, h2⟩ := hp
            have hlen1 : r1.length < s.length := parseNodeFast_consumes hn
            obtain ⟨c1, hc1, hf1⟩ :=
              (IH (10 * s.length) (by omega)).1 s a r1 le_rfl hn
            obtain ⟨c2, hc2, hf2⟩ :=
              (IH (10 * r1.length + n) (by omega)).2 n r1 b r2 le_rfl hcn
            refine ⟨c1 ++ c2, ?_, ?_⟩
            · rw [← h2, hc1, hc2, List.append_assoc]
            · intro X
              rw [List.append_assoc, parseChildrenFast_succ, hf1 (c2 ++ X)]
              simp only [hf2 X, ← h1]

theorem parseNodeFast_frame {s : List Nat} {st : Nat × Nat × Nat} {r : List Nat}
    (h : parseNodeFast s = some (st, r)) :
    ∃ c, s = c ++ r ∧ ∀ X, parseNodeFast (c ++ X) = some (st, X) :=
  (parseFrame_all (10 * s.length)).1 s st r le_rfl h

theorem parseNodeFast_truncate {s : List Nat} {st : Nat × Nat × Nat} {r : List Nat}
    (h : parseNodeFast s = some (st, r)) :
    ∀ m, m < s.length - r.length → parseNodeFast (s.take m) = none := by
  intro m hm
  cases h2 : parseNodeFast (s.take m) with
  | none => rfl
  | some p =>
    exfalso
    obtain ⟨st', r'⟩ := p
    obtain ⟨c', hc', hf'⟩ := parseNodeFast_frame h2
    have hrlen : r.length < s.length := parseNodeFast_consumes h
    have hmle : m ≤ s.length := by omega
    have htk : (s.take m).length = m := by
      simp only [List.length_take]; omega
    have hs : s = c' ++ (r' ++ s.drop m) := by
      conv_lhs => rw [← List.take_append_drop m s]
      rw [hc', List.append_assoc]
    have hps := hf' (r' ++ s.drop m)
    rw [← hs, h] at hps
    simp only [Option.some.injEq, Prod.mk.injEq] at hps
    obtain ⟨-, h2'⟩ := hps
    have hlc : c'.length + r'.length = m := by
      rw [hc'] at htk; simpa using htk
    have hrl : r.length = r'.length + (s.length - m) := by
      rw [h2']; simp
    omega

theorem header_append_drop (a b c : Nat) (body : List Nat) :
    (u32le a ++ u32le b ++ u32le c ++ body).drop 12 = body := by
  simp [u32le]

theorem header_append_length (a b c : Nat) (body : List Nat) :
    (u32le a ++ u32le b ++ u32le c ++ body).length = 12 + body.length := by
  simp [u32le]; omega

/-- C1: fast-mode decoding of the stream produced by encoding the
block-policy built tree of any volume reports exactly the tree's total,
leaf and internal node counts. -/
theorem c1_round_trip (enc : ℚ → List Nat) (henc : ∀ q, (enc q).length = 4)
    (v : Volume) :
    ∃ tv ratio,
      countOctreePoints (u32le v.nx ++ u32le v.ny ++ u32le v.nz ++
          blockBytes enc (buildBlock v 0 0 0 v.nx v.ny v.nz)) =
        some (tv, countNodes (buildBlock v 0 0 0 v.nx v.ny v.nz),
          leafCount (buildBlock v 0 0 0 v.nx v.ny v.nz),
          internalCount (buildBlock v 0 0 0 v.nx v.ny v.nz), ratio) := by
  have hp : parseNodeFast ((u32le v.nx ++ u32le v.ny ++ u32le v.nz ++
      blockBytes enc (buildBlock v 0 0 0 v.nx v.ny v.nz)).drop 12) =
      some ((countNodes (buildBlock v 0 0 0 v.nx v.ny v.nz),
        leafCount (buildBlock v 0 0 0 v.nx v.ny v.nz),
        internalCount (buildBlock v 0 0 0 v.nx v.ny v.nz)), []) := by
    rw [header_append_drop]
    simpa using parse_blockBytes enc henc (buildBlock v 0 0 0 v.nx v.ny v.nz) []
  have hlen : ¬ ((u32le v.nx ++ u32le v.ny ++ u32le v.nz ++
      blockBytes enc (buildBlock v 0 0 0 v.nx v.ny v.nz)).length < 12) := by
    rw [header_append_length]; omega
  unfold countOctreePoints
  simp only [if_neg hlen, hp]
  exact ⟨_, _, rfl⟩

theorem c1_round_trip_witness :
    (∀ q, (encZero q).length = 4) ∧
    (∃ tv ratio,
      countOctreePoints (u32le (1:Nat) ++ u32le 1 ++ u32le 1 ++
          blockBytes encZero (buildBlock ⟨1, 1, 1, fun _ _ _ => 0⟩ 0 0 0 1 1 1)) =
        some (tv, countNodes (buildBlock ⟨1, 1, 1, fun _ _ _ => 0⟩ 0 0 0 1 1 1),
          leafCount (buildBlock ⟨1, 1, 1, fun _ _ _ => 0⟩ 0 0 0 1 1 1),
          internalCount (buildBlock ⟨1, 1, 1, fun _ _ _ => 0⟩ 0 0 0 1 1 1), ratio)) :=
  ⟨fun _ => rfl, c1_round_trip encZero (fun _ => rfl) ⟨1, 1, 1, fun _ _ _ => 0⟩⟩

/-- C5 (amended): the fast decoder aborts with a failure on any truncation
of a parseable stream — cutting the body anywhere before the bytes the
parse actually consumed (including a missing tag byte or a short leaf
payload) makes `count_octree_points` report a failure. -/
theorem c5_fast_truncation_aborts (hdr s : List Nat) (st : Nat × Nat × Nat)
    (r : List Nat) (m : Nat) (hh : hdr.length = 12)
    (hp : parseNodeFast s = some (st, r)) (hm : m < s.length - r.length) :
    countOctreePoints (hdr ++ s.take m) = none := by
  unfold countOctreePoints
  by_cases hlen : (hdr ++ s.take m).length < 12
  · rw [if_pos hlen]
  · rw [if_neg hlen]
    have hdrop : (hdr ++ s.take m).drop 12 = s.take m := by
      have hdl := List.drop_left hdr (s.take m)
      rwa [hh] at hdl
    rw [hdrop]
    simp only [parseNodeFast_truncate hp m hm]

theorem c5_fast_truncation_aborts_witness :
    ((List.replicate 12 (0:Nat)).length = 12 ∧
      parseNodeFast [0, 9, 9, 9, 9] = some ((1, 1, 0), []) ∧
      3 < [0, 9, 9, 9, 9].length - List.length ([] : List Nat)) ∧
    countOctreePoints (List.replicate 12 (0:Nat) ++ [0, 9, 9, 9, 9].take 3) = none := by
  have h1 : (List.replicate 12 (0:Nat)).length = 12 := by simp
  have h2 : parseNodeFast [0, 9, 9, 9, 9] = some ((1, 1, 0), []) := by
    simp [parseNodeFast, parseNodeFastAux]
  have h3 : 3 < [0, 9, 9, 9, 9].length - List.length ([] : List Nat) := by simp
  exact ⟨⟨h1, h2, h3⟩, c5_fast_truncation_aborts _ _ _ _ 3 h1 h2 h3⟩

/-- C5 counterexample: on a stream whose single leaf payload is truncated
to 2 bytes, the fast mode aborts but the detailed mode does not — it skips
the short payload and still reports statistics, contradicting the claim
that both modes report a structured parse failure and abort. -/
theorem c5_detailed_does_not_abort :
    countOctreePoints ([1, 0, 0, 0, 1, 0, 0, 0, 1, 0, 0, 0] ++ [0, 9, 9]) = none ∧
    detailedOctreeAnalysis ([1, 0, 0, 0, 1, 0, 0, 0, 1, 0, 0, 0] ++ [0, 9, 9]) =
      some (1, 1, 0) := by
  constructor
  · simp [countOctreePoints, parseNodeFast, parseNodeFastAux, readU32]
  · simp [detailedOctreeAnalysis, parseDetailed, parseDetailedAux, readU32]

/-- C10 (amended): both after a leaf tag the fast decoder unconditionally
consumes exactly 4 payload bytes, and on a point-format leaf encoding it
therefore leaves the 12 coordinate bytes in the stream, so any following
node's tag is read from within the coordinate bytes. -/
theorem c10_leaf_payload_width (enc : ℚ → List Nat) (henc : ∀ q, (enc q).length = 4) :
    (∀ b : List Nat, 4 ≤ b.length →
      parseNodeFast (0 :: b) = some ((1, 1, 0), b.drop 4)) ∧
    (∀ (value : ℚ) (px py pz : Nat) (rest : List Nat),
      parseNodeFast (pointBytes enc (.leaf value px py pz) ++ rest) =
        some ((1, 1, 0), enc (px : ℚ) ++ (enc (py : ℚ) ++ (enc (pz : ℚ) ++ rest)))) := by
  constructor
  · intro b hb; rw [parseNodeFast_cons_zero, if_pos hb]
  · intro value px py pz rest
    simp only [pointBytes, List.cons_append, List.append_assoc]
    rw [parseNodeFast_cons_zero, if_pos (by simp [henc])]
    have hd := List.drop_left (enc value)
      (enc (px : ℚ) ++ (enc (py : ℚ) ++ (enc (pz : ℚ) ++ rest)))
    rw [henc value] at hd
    rw [hd]

theorem c10_leaf_payload_width_witness :
    (∀ q, (encZero q).length = 4) ∧
    parseNodeFast (pointBytes encZero (.leaf 5 1 2 3) ++ [7]) =
      some ((1, 1, 0), encZero ((1:Nat) : ℚ) ++ (encZero ((2:Nat) : ℚ) ++ (encZero ((3:Nat) : ℚ) ++ [7]))) :=
  ⟨fun _ => rfl, (c10_leaf_payload_width encZero (fun _ => rfl)).2 5 1 2 3 [7]⟩

/-- C10 counterexample: a point-format stream consisting of a single leaf
parses without any misinterpretation — the fast decoder stops after the
value payload, silently ignores the 12 coordinate bytes, and reports
counts (total 1, leaves 1, internals 0) that match the point tree, so the
statistics are not wrong for every point stream with a leaf. -/
theorem c10_single_leaf_stream_parses :
    countOctreePoints (u32le 1 ++ u32le 1 ++ u32le 1 ++
      pointBytes encZero (.leaf 5 1 2 3)) = some (1, 1, 1, 0, 1) := by
  simp [countOctreePoints, u32le, pointBytes, encZero, parseNodeFast,
    parseNodeFastAux, readU32]

theorem buildBlock_children (v : Volume) (mx my mz sx sy sz : Nat)
    (h1 : ¬(sx ≤ 1 ∧ sy ≤ 1 ∧ sz ≤ 1))
    (h2 : ¬(regionVals v mx my mz sx sy sz = []))
    (h3 : ¬(listMax (regionVals v mx my mz sx sy sz) -
      listMin (regionVals v mx my mz sx sy sz) ≤ 50))
    (h4 : ¬(min sx (min sy sz) < 2)) :
    (buildBlock v mx my mz sx sy sz).childrenL =
      (blockChildRegions ⟨mx, my, mz, sx, sy, sz⟩).map
        (fun c => buildBlock v c.minx c.miny c.minz c.sx c.sy c.sz) := by
  rw [buildBlock.eq_def]
  simp only [if_neg h1, if_neg h2, if_neg h3, dif_neg h4]
  simp [OctreeNode.childrenL, blockChildRegions]

theorem buildPoint_children (v : Volume) (mx my mz sx sy sz maxD cur : Nat)
    (h1 : ¬(cur ≥ maxD ∨ min sx (min sy sz) ≤ 1))
    (h2 : ¬(regionVals v mx my mz sx sy sz = []))
    (h3 : ¬(listMax (regionVals v mx my mz sx sy sz) -
      listMin (regionVals v mx my mz sx sy sz) ≤ 50))
    (h4 : ¬(min sx (min sy sz) < 2)) :
    (buildPoint v mx my mz sx sy sz maxD cur).childrenL =
      (pointChildRegions ⟨mx, my, mz, sx, sy, sz⟩).map
        (fun c => buildPoint v c.minx c.miny c.minz c.sx c.sy c.sz maxD (cur + 1)) := by
  rw [buildPoint.eq_def]
  simp only [if_neg h1, if_neg h2, if_neg h3, dif_neg h4]
  simp [PointNode.childrenL, pointChildRegions]

set_option maxHeartbeats 4000000 in
/-- C2: for every region of size at least (1,1,1), the 8 child regions of
the halving rule tile the parent exactly — every coordinate of the parent
lies in exactly one child and no coordinate outside the parent lies in
any child — and the child volumes sum to the parent volume. -/
theorem c2_partition_tiles (r : Reg)
    (h : 1 ≤ r.sx ∧ 1 ≤ r.sy ∧ 1 ≤ r.sz) :
    (∀ x y z, ((blockChildRegions r).countP (fun c => decide (c.contains x y z))) =
      if r.contains x y z then 1 else 0) ∧
    ((blockChildRegions r).map Reg.vol).sum = r.vol := by
  obtain ⟨mx, my, mz, sx, sy, sz⟩ := r
  obtain ⟨hx1, hy1, hz1⟩ := h
  constructor
  · intro x y z
    simp only [blockChildRegions, Reg.contains, List.countP_cons, List.countP_nil,
      decide_eq_true_eq]
    split_ifs <;> omega
  · simp only [blockChildRegions, Reg.vol, List.map_cons, List.map_nil,
      List.sum_cons, List.sum_nil]
    set px := (sx + 1) / 2 with hpx
    set py := (sy + 1) / 2 with hpy
    set pz := (sz + 1) / 2 with hpz
    obtain ⟨ax, hax⟩ : ∃ a, sx = px + a := ⟨sx - px, by omega⟩
    obtain ⟨ay, hay⟩ : ∃ a, sy = py + a := ⟨sy - py, by omega⟩
    obtain ⟨az, haz⟩ : ∃ a, sz = pz + a := ⟨sz - pz, by omega⟩
    rw [hax, hay, haz]
    simp only [Nat.add_sub_cancel_left]
    ring

theorem c2_partition_tiles_witness :
    ((1:Nat) ≤ 1 ∧ (1:Nat) ≤ 2 ∧ (1:Nat) ≤ 3) ∧
    ((blockChildRegions ⟨0, 0, 0, 1, 2, 3⟩).map Reg.vol).sum =
      Reg.vol ⟨0, 0, 0, 1, 2, 3⟩ :=
  ⟨⟨le_rfl, by decide, by decide⟩,
    (c2_partition_tiles ⟨0, 0, 0, 1, 2, 3⟩ ⟨le_rfl, by decide, by decide⟩).2⟩

/-- C3 (amended): the block-value builder creates its 8 children in
exactly the order in which the detailed decoder derives the 8 child
extents; this does not hold of the point-sample builder, whose nesting
order is reversed. -/
theorem c3_block_order_matches_decoder (r : Reg) :
    (blockChildRegions r).map Reg.size = detailedChildSizes r.sx r.sy r.sz := by
  obtain ⟨mx, my, mz, sx, sy, sz⟩ := r
  simp [blockChildRegions, detailedChildSizes, Reg.size]

/-- C3 counterexample: for a region of size (2,2,3) the point-sample
builder's child creation order disagrees with the decoder's child-extent
derivation order, so the partition order is not the same everywhere for
both builder variants. -/
theorem c3_point_order_differs :
    (pointChildRegions ⟨0, 0, 0, 2, 2, 3⟩).map Reg.size ≠ detailedChildSizes 2 2 3 := by
  decide

theorem sum_map_const {α : Type} (l : List α) (c : Nat) :
    (l.map (fun _ => c)).sum = l.length * c := by
  induction l with
  | nil => simp
  | cons a t ih => simp [ih]; ring

theorem length_regionVals (v : Volume) (mx my mz sx sy sz : Nat) :
    (regionVals v mx my mz sx sy sz).length =
      (min (mz + sz) v.nz - mz) *
        ((min (my + sy) v.ny - my) * (min (mx + sx) v.nx - mx)) := by
  unfold regionVals
  rw [List.length_flatMap]
  simp only [Function.comp_def]
  have hinner : ∀ z, ((List.range' my (min (my + sy) v.ny - my)).flatMap (fun y =>
      (List.range' mx (min (mx + sx) v.nx - mx)).map (fun x => v.val x y z))).length =
      (min (my + sy) v.ny - my) * (min (mx + sx) v.nx - mx) := by
    intro z
    rw [List.length_flatMap]
    simp only [Function.comp_def, List.length_map, List.length_range']
    rw [sum_map_const]
    simp [List.length_range']
  simp only [hinner]
  rw [sum_map_const]
  simp [List.length_range']

/-- C4: the block-value builder yields a leaf exactly when the region is at
most one voxel, or empty, or its fluctuation is at most the threshold 50,
or it cannot be halved; the leaf value is 0 for an empty region, the single
sample for a one-voxel region, and the mean of the region otherwise; in the
remaining case the node is internal with exactly the 8 children built on
the partition regions in partition order. -/
theorem c4_block_leaf_decision (v : Volume) (mx my mz sx sy sz : Nat) :
    ((buildBlock v mx my mz sx sy sz).isLeaf = true ↔
      ((sx ≤ 1 ∧ sy ≤ 1 ∧ sz ≤ 1) ∨ regionVals v mx my mz sx sy sz = [] ∨
        listMax (regionVals v mx my mz sx sy sz) -
          listMin (regionVals v mx my mz sx sy sz) ≤ 50 ∨
        min sx (min sy sz) < 2)) ∧
    (regionVals v mx my mz sx sy sz = [] →
      buildBlock v mx my mz sx sy sz = .leaf 0) ∧
    ((sx ≤ 1 ∧ sy ≤ 1 ∧ sz ≤ 1) → regionVals v mx my mz sx sy sz ≠ [] →
      (regionVals v mx my mz sx sy sz).length = 1 ∧
      buildBlock v mx my mz sx sy sz =
        .leaf ((regionVals v mx my mz sx sy sz).headD 0)) ∧
    (¬(sx ≤ 1 ∧ sy ≤ 1 ∧ sz ≤ 1) → regionVals v mx my mz sx sy sz ≠ [] →
      (listMax (regionVals v mx my mz sx sy sz) -
          listMin (regionVals v mx my mz sx sy sz) ≤ 50 ∨
        min sx (min sy sz) < 2) →
      buildBlock v mx my mz sx sy sz = .leaf (mean (regionVals v mx my mz sx sy sz))) ∧
    ((buildBlock v mx my mz sx sy sz).isLeaf = false →
      (buildBlock v mx my mz sx sy sz).childrenL =
        (blockChildRegions ⟨mx, my, mz, sx, sy, sz⟩).map
          (fun c => buildBlock v c.minx c.miny c.minz c.sx c.sy c.sz)) := by
  refine ⟨?_, ?_, ?_, ?_, ?_⟩
  · by_cases hA : sx ≤ 1 ∧ sy ≤ 1 ∧ sz ≤ 1
    · rw [buildBlock.eq_def]
      simp only [if_pos hA, OctreeNode.isLeaf, eq_self_iff_true, true_iff]
      exact Or.inl hA
    · by_cases hB : regionVals v mx my mz sx sy sz = []
      · rw [buildBlock.eq_def]
        simp only [if_neg hA, if_pos hB, OctreeNode.isLeaf, eq_self_iff_true, true_iff]
        exact Or.inr (Or.inl hB)
      · by_cases hC : listMax (regionVals v mx my mz sx sy sz) -
            listMin (regionVals v mx my mz sx sy sz) ≤ 50
        · rw [buildBlock.eq_def]
          simp only [if_neg hA, if_neg hB, if_pos hC, OctreeNode.isLeaf,
            eq_self_iff_true, true_iff]
          exact Or.inr (Or.inr (Or.inl hC))
        · by_cases hD : min sx (min sy sz) < 2
          · rw [buildBlock.eq_def]
            simp only [if_neg hA, if_neg hB, if_neg hC, dif_pos hD,
              OctreeNode.isLeaf, eq_self_iff_true, true_iff]
            exact Or.inr (Or.inr (Or.inr hD))
          · rw [buildBlock.eq_def]
            simp only [if_neg hA, if_neg hB, if_neg hC, dif_neg hD,
              OctreeNode.isLeaf, Bool.false_eq_true, false_iff]
            rintro (h | h | h | h)
            · exact hA h
            · exact hB h
            · exact hC h
            · exact hD h
  · intro hE
    by_cases hA : sx ≤ 1 ∧ sy ≤ 1 ∧ sz ≤ 1
    · rw [buildBlock.eq_def]
      simp only [if_pos hA, hE]
      rfl
    · rw [buildBlock.eq_def]
      simp only [if_neg hA, if_pos hE]
  · intro hA hne
    constructor
    · have hlen := length_regionVals v mx my mz sx sy sz
      have hne0 : (regionVals v mx my mz sx sy sz).length ≠ 0 := by
        simpa [List.length_eq_zero] using hne
      rw [hlen] at hne0
      rw [hlen]
      obtain ⟨hA1, hA2, hA3⟩ := hA
      obtain ⟨h3, h21⟩ := Nat.mul_ne_zero_iff.mp hne0
      obtain ⟨h2, h1⟩ := Nat.mul_ne_zero_iff.mp h21
      have e3 : min (mz + sz) v.nz - mz = 1 := by omega
      have e2 : min (my + sy) v.ny - my = 1 := by omega
      have e1 : min (mx + sx) v.nx - mx = 1 := by omega
      rw [e3, e2, e1]
    · rw [buildBlock.eq_def]
      simp only [if_pos hA]
  · intro hA hne hor
    by_cases hC : listMax (regionVals v mx my mz sx sy sz) -
        listMin (regionVals v mx my mz sx sy sz) ≤ 50
    · rw [buildBlock.eq_def]
      simp only [if_neg hA, if_neg hne, if_pos hC]
    · have hD : min sx (min sy sz) < 2 := hor.resolve_left hC
      rw [buildBlock.eq_def]
      simp only [if_neg hA, if_neg hne, if_neg hC, dif_pos hD]
  · intro hlf
    by_cases hA : sx ≤ 1 ∧ sy ≤ 1 ∧ sz ≤ 1
    · exfalso
      rw [buildBlock.eq_def] at hlf
      simp only [if_pos hA, OctreeNode.isLeaf] at hlf
      exact absurd hlf (by decide)
    · by_cases hB : regionVals v mx my mz sx sy sz = []
      · exfalso
        rw [buildBlock.eq_def] at hlf
        simp only [if_neg hA, if_pos hB, OctreeNode.isLeaf] at hlf
        exact absurd hlf (by decide)
      · by_cases hC : listMax (regionVals v mx my mz sx sy sz) -
            listMin (regionVals v mx my mz sx sy sz) ≤ 50
        · exfalso
          rw [buildBlock.eq_def] at hlf
          simp only [if_neg hA, if_neg hB, if_pos hC, OctreeNode.isLeaf] at hlf
          exact absurd hlf (by decide)
        · by_cases hD : min sx (min sy sz) < 2
          · exfalso
            rw [buildBlock.eq_def] at hlf
            simp only [if_neg hA, if_neg hB, if_neg hC, dif_pos hD,
              OctreeNode.isLeaf] at hlf
            exact absurd hlf (by decide)
          · exact buildBlock_children v mx my mz sx sy sz hA hB hC hD

theorem c4_block_leaf_decision_witness :
    (((1:Nat) ≤ 1 ∧ (1:Nat) ≤ 1 ∧ (1:Nat) ≤ 1) ∧
      regionVals ⟨1, 1, 1, fun _ _ _ => (7:ℚ)⟩ 0 0 0 1 1 1 ≠ []) ∧
    ((regionVals ⟨1, 1, 1, fun _ _ _ => (7:ℚ)⟩ 0 0 0 1 1 1).length = 1 ∧
      buildBlock ⟨1, 1, 1, fun _ _ _ => (7:ℚ)⟩ 0 0 0 1 1 1 =
        .leaf ((regionVals ⟨1, 1, 1, fun _ _ _ => (7:ℚ)⟩ 0 0 0 1 1 1).headD 0)) := by
  have hne : regionVals ⟨1, 1, 1, fun _ _ _ => (7:ℚ)⟩ 0 0 0 1 1 1 ≠ [] := by
    simp [regionVals]
  exact ⟨⟨⟨le_rfl, le_rfl, le_rfl⟩, hne⟩,
    (c4_block_leaf_decision ⟨1, 1, 1, fun _ _ _ => (7:ℚ)⟩ 0 0 0 1 1 1).2.2.1
      ⟨le_rfl, le_rfl, le_rfl⟩ hne⟩

theorem center_out_of_nil (v : Volume) (mx my mz sx sy sz : Nat)
    (hs : 2 ≤ sx ∧ 2 ≤ sy ∧ 2 ≤ sz)
    (hnil : regionVals v mx my mz sx sy sz = []) :
    ¬(mx + sx/2 < v.nx ∧ my + sy/2 < v.ny ∧ mz + sz/2 < v.nz) := by
  have hlen := length_regionVals v mx my mz sx sy sz
  rw [hnil] at hlen
  simp only [List.length_nil] at hlen
  obtain ⟨h1, h2, h3⟩ := hs
  rcases Nat.mul_eq_zero.mp hlen.symm with h | h21
  · intro hin; omega
  · rcases Nat.mul_eq_zero.mp h21 with h | h
    · intro hin; omega
    · intro hin; omega

/-- C6 (amended): every leaf of the point-sample builder stores the
unclamped region-center coordinate; when the center lies inside the volume
the leaf value is the center sample; when it lies outside, the value is 0
in the depth- or size-forced branch regardless of the region's contents,
and the mean of the region (or 0 if empty) in the fluctuation and
cannot-halve branches. -/
theorem c6_point_leaf_value (v : Volume) (mx my mz sx sy sz maxD cur : Nat) :
    ((buildPoint v mx my mz sx sy sz maxD cur).isLeaf = true →
      pointPos (buildPoint v mx my mz sx sy sz maxD cur) =
        (mx + sx/2, my + sy/2, mz + sz/2)) ∧
    ((buildPoint v mx my mz sx sy sz maxD cur).isLeaf = true →
      (mx + sx/2 < v.nx ∧ my + sy/2 < v.ny ∧ mz + sz/2 < v.nz) →
      pointVal (buildPoint v mx my mz sx sy sz maxD cur) =
        v.val (mx + sx/2) (my + sy/2) (mz + sz/2)) ∧
    ((cur ≥ maxD ∨ min sx (min sy sz) ≤ 1) →
      ¬(mx + sx/2 < v.nx ∧ my + sy/2 < v.ny ∧ mz + sz/2 < v.nz) →
      buildPoint v mx my mz sx sy sz maxD cur =
        .leaf 0 (mx + sx/2) (my + sy/2) (mz + sz/2)) ∧
    (¬(cur ≥ maxD ∨ min sx (min sy sz) ≤ 1) →
      (buildPoint v mx my mz sx sy sz maxD cur).isLeaf = true →
      ¬(mx + sx/2 < v.nx ∧ my + sy/2 < v.ny ∧ mz + sz/2 < v.nz) →
      pointVal (buildPoint v mx my mz sx sy sz maxD cur) =
        (if regionVals v mx my mz sx sy sz = [] then 0
         else mean (regionVals v mx my mz sx sy sz))) := by
  refine ⟨?_, ?_, ?_, ?_⟩
  · intro hlf
    by_cases h1 : cur ≥ maxD ∨ min sx (min sy sz) ≤ 1
    · rw [buildPoint.eq_def]
      simp only [if_pos h1, pointPos]
    · by_cases h2 : regionVals v mx my mz sx sy sz = []
      · rw [buildPoint.eq_def]
        simp only [if_neg h1, if_pos h2, pointPos]
      · by_cases h3 : listMax (regionVals v mx my mz sx sy sz) -
            listMin (regionVals v mx my mz sx sy sz) ≤ 50
        · rw [buildPoint.eq_def]
          simp only [if_neg h1, if_neg h2, if_pos h3, pointPos]
        · by_cases h4 : min sx (min sy sz) < 2
          · rw [buildPoint.eq_def]
            simp only [if_neg h1, if_neg h2, if_neg h3, dif_pos h4, pointPos]
          · exfalso
            rw [buildPoint.eq_def] at hlf
            simp only [if_neg h1, if_neg h2, if_neg h3, dif_neg h4,
              PointNode.isLeaf] at hlf
            exact absurd hlf (by decide)
  · intro hlf hin
    by_cases h1 : cur ≥ maxD ∨ min sx (min sy sz) ≤ 1
    · rw [buildPoint.eq_def]
      simp only [if_pos h1, if_pos hin, pointVal]
    · have hs : 2 ≤ sx ∧ 2 ≤ sy ∧ 2 ≤ sz := by
        push_neg at h1
        omega
      by_cases h2 : regionVals v mx my mz sx sy sz = []
      · exact absurd hin (center_out_of_nil v mx my mz sx sy sz hs h2)
      · by_cases h3 : listMax (regionVals v mx my mz sx sy sz) -
            listMin (regionVals v mx my mz sx sy sz) ≤ 50
        · rw [buildPoint.eq_def]
          simp only [if_neg h1, if_neg h2, if_pos h3, if_pos hin, pointVal]
        · by_cases h4 : min sx (min sy sz) < 2
          · rw [buildPoint.eq_def]
            simp only [if_neg h1, if_neg h2, if_neg h3, dif_pos h4, if_pos hin,
              pointVal]
          · exfalso
            rw [buildPoint.eq_def] at hlf
            simp only [if_neg h1, if_neg h2, if_neg h3, dif_neg h4,
              PointNode.isLeaf] at hlf
            exact absurd hlf (by decide)
  · intro h1 hnotin
    rw [buildPoint.eq_def]
    simp only [if_pos h1, if_neg hnotin]
  · intro h1 hlf hnotin
    by_cases h2 : regionVals v mx my mz sx sy sz = []
    · rw [buildPoint.eq_def]
      simp only [if_neg h1, if_pos h2, pointVal]
    · by_cases h3 : listMax (regionVals v mx my mz sx sy sz) -
          listMin (regionVals v mx my mz sx sy sz) ≤ 50
      · rw [buildPoint.eq_def]
        simp only [if_neg h1, if_neg h2, if_pos h3, if_neg hnotin, if_neg h2,
          pointVal]
      · by_cases h4 : min sx (min sy sz) < 2
        · rw [buildPoint.eq_def]
          simp only [if_neg h1, if_neg h2, if_neg h3, dif_pos h4, if_neg hnotin,
            if_neg h2, pointVal]
        · exfalso
          rw [buildPoint.eq_def] at hlf
          simp only [if_neg h1, if_neg h2, if_neg h3, dif_neg h4,
            PointNode.isLeaf] at hlf
          exact absurd hlf (by decide)

theorem c6_point_leaf_value_witness :
    (buildPoint ⟨1, 1, 1, fun _ _ _ => (3:ℚ)⟩ 0 0 0 1 1 1 10 0).isLeaf = true ∧
    pointPos (buildPoint ⟨1, 1, 1, fun _ _ _ => (3:ℚ)⟩ 0 0 0 1 1 1 10 0) = (0, 0, 0) := by
  have hlf : (buildPoint ⟨1, 1, 1, fun _ _ _ => (3:ℚ)⟩ 0 0 0 1 1 1 10 0).isLeaf = true := by
    simp [buildPoint, PointNode.isLeaf]
  exact ⟨hlf, (c6_point_leaf_value ⟨1, 1, 1, fun _ _ _ => (3:ℚ)⟩ 0 0 0 1 1 1 10 0).1 hlf⟩

/-- C6 counterexample: calling the point builder on the region with origin
(3,0,0) and size (4,1,1) over a 4×1×1 volume of constant value 9 forces a
leaf whose center (5,0,0) lies outside the volume; the stored value is 0
even though the region is non-empty with mean 9, contradicting the claim
that the out-of-volume fallback is the mean of the region's samples. -/
theorem c6_forced_leaf_fallback_zero :
    buildPoint volC6 3 0 0 4 1 1 10 0 = PointNode.leaf 0 5 0 0 ∧
    regionVals volC6 3 0 0 4 1 1 ≠ [] ∧
    mean (regionVals volC6 3 0 0 4 1 1) = 9 ∧
    ¬(5 < volC6.nx) := by
  refine ⟨?_, ?_, ?_, by decide⟩
  · simp [buildPoint, volC6]
  · simp [regionVals, volC6]
  · simp [mean, regionVals, volC6]

theorem readU32_header (a b c : Nat) (body : List Nat)
    (hA : a < 4294967296) (hB : b < 4294967296) (hC : c < 4294967296) :
    readU32 (u32le a ++ u32le b ++ u32le c ++ body) 0 = a ∧
    readU32 (u32le a ++ u32le b ++ u32le c ++ body) 4 = b ∧
    readU32 (u32le a ++ u32le b ++ u32le c ++ body) 8 = c := by
  refine ⟨?_, ?_, ?_⟩ <;> (simp [u32le, readU32]; omega)

theorem mem_regionVals_const {v : Volume} {c : ℚ} (hv : ∀ x y z, v.val x y z = c)
    (mx my mz sx sy sz : Nat) {q : ℚ}
    (hq : q ∈ regionVals v mx my mz sx sy sz) : q = c := by
  unfold regionVals at hq
  simp only [List.mem_flatMap, List.mem_map] at hq
  obtain ⟨z, -, y, -, x, -, rfl⟩ := hq
  exact hv x y z

theorem foldl_max_const (c : ℚ) :
    ∀ xs : List ℚ, (∀ q ∈ xs, q = c) → xs.foldl max c = c := by
  intro xs
  induction xs with
  | nil => intro _; rfl
  | cons a t ih =>
      intro h
      have ha : a = c := h a (by simp)
      simp only [List.foldl_cons, ha, max_self]
      exact ih (fun q hq => h q (by simp [hq]))

theorem foldl_min_const (c : ℚ) :
    ∀ xs : List ℚ, (∀ q ∈ xs, q = c) → xs.foldl min c = c := by
  intro xs
  induction xs with
  | nil => intro _; rfl
  | cons a t ih =>
      intro h
      have ha : a = c := h a (by simp)
      simp only [List.foldl_cons, ha, min_self]
      exact ih (fun q hq => h q (by simp [hq]))

theorem listMax_const {l : List ℚ} {c : ℚ} (hl : l ≠ []) (h : ∀ q ∈ l, q = c) :
    listMax l = c := by
  cases l with
  | nil => exact absurd rfl hl
  | cons a t =>
      have ha : a = c := h a (by simp)
      simp only [listMax, ha]
      exact foldl_max_const c t (fun q hq => h q (by simp [hq]))

theorem listMin_const {l : List ℚ} {c : ℚ} (hl : l ≠ []) (h : ∀ q ∈ l, q = c) :
    listMin l = c := by
  cases l with
  | nil => exact absurd rfl hl
  | cons a t =>
      have ha : a = c := h a (by simp)
      simp only [listMin, ha]
      exact foldl_min_const c t (fun q hq => h q (by simp [hq]))

theorem sum_const_list (c : ℚ) :
    ∀ l : List ℚ, (∀ q ∈ l, q = c) → l.sum = l.length * c := by
  intro l
  induction l with
  | nil => intro _; simp
  | cons a t ih =>
      intro h
      have ha : a = c := h a (by simp)
      have ht := ih (fun q hq => h q (by simp [hq]))
      simp only [List.sum_cons, List.length_cons, ha, ht]
      push_cast
      ring

theorem mean_const {l : List ℚ} {c : ℚ} (hl : l ≠ []) (h : ∀ q ∈ l, q = c) :
    mean l = c := by
  have hlen : (l.length : ℚ) ≠ 0 := by
    have hne : l.length ≠ 0 := by simpa [List.length_eq_zero] using hl
    exact_mod_cast hne
  unfold mean
  rw [sum_const_list c l h]
  field_simp

theorem regionVals_root_ne_nil (v : Volume)
    (h1 : 1 ≤ v.nx) (h2 : 1 ≤ v.ny) (h3 : 1 ≤ v.nz) :
    regionVals v 0 0 0 v.nx v.ny v.nz ≠ [] := by
  have hlen := length_regionVals v 0 0 0 v.nx v.ny v.nz
  simp only [Nat.zero_add, Nat.min_self, Nat.sub_zero] at hlen
  intro he
  rw [he] at hlen
  simp only [List.length_nil] at hlen
  rcases Nat.mul_eq_zero.mp hlen.symm with h | h21
  · omega
  · rcases Nat.mul_eq_zero.mp h21 with h | h <;> omega

theorem buildBlock_const_leaf (v : Volume) (c : ℚ) (hv : ∀ x y z, v.val x y z = c)
    (h1 : 1 ≤ v.nx) (h2 : 1 ≤ v.ny) (h3 : 1 ≤ v.nz) :
    buildBlock v 0 0 0 v.nx v.ny v.nz = .leaf c := by
  have hne := regionVals_root_ne_nil v h1 h2 h3
  have hall : ∀ q ∈ regionVals v 0 0 0 v.nx v.ny v.nz, q = c :=
    fun q hq => mem_regionVals_const hv 0 0 0 v.nx v.ny v.nz hq
  have hmax := listMax_const hne hall
  have hmin := listMin_const hne hall
  have hmean := mean_const hne hall
  by_cases hA : v.nx ≤ 1 ∧ v.ny ≤ 1 ∧ v.nz ≤ 1
  · have hhead : (regionVals v 0 0 0 v.nx v.ny v.nz).headD 0 = c := by
      cases hvl : regionVals v 0 0 0 v.nx v.ny v.nz with
      | nil => exact absurd hvl hne
      | cons q t =>
          have hq : q = c := hall q (by rw [hvl]; simp)
          simp [hq]
    rw [buildBlock.eq_def]
    simp only [if_pos hA, hhead]
  · have hC : listMax (regionVals v 0 0 0 v.nx v.ny v.nz) -
        listMin (regionVals v 0 0 0 v.nx v.ny v.nz) ≤ 50 := by
      rw [hmax, hmin]; simp
    rw [buildBlock.eq_def]
    simp only [if_neg hA, if_neg hne, if_pos hC, hmean]

/-- C7: a volume in which all samples share one value builds to a single
leaf root holding that value, regardless of volume size; its encoding is
exactly the 12-byte header followed by tag byte 0 and the value payload;
fast-mode decoding reports 1 total node, 1 leaf, 0 internal nodes, and a
compression ratio equal to the total voxel count. -/
theorem c7_uniform_volume (enc : ℚ → List Nat) (henc : ∀ q, (enc q).length = 4)
    (v : Volume) (c : ℚ) (hv : ∀ x y z, v.val x y z = c)
    (h1 : 1 ≤ v.nx) (h2 : 1 ≤ v.ny) (h3 : 1 ≤ v.nz)
    (b1 : v.nx < 4294967296) (b2 : v.ny < 4294967296) (b3 : v.nz < 4294967296) :
    buildBlock v 0 0 0 v.nx v.ny v.nz = .leaf c ∧
    u32le v.nx ++ u32le v.ny ++ u32le v.nz ++
        blockBytes enc (buildBlock v 0 0 0 v.nx v.ny v.nz) =
      u32le v.nx ++ u32le v.ny ++ u32le v.nz ++ (0 :: enc c) ∧
    countOctreePoints (u32le v.nx ++ u32le v.ny ++ u32le v.nz ++
        blockBytes enc (buildBlock v 0 0 0 v.nx v.ny v.nz)) =
      some (v.nx * v.ny * v.nz, 1, 1, 0, ((v.nx * v.ny * v.nz : Nat) : ℚ)) := by
  have hb := buildBlock_const_leaf v c hv h1 h2 h3
  refine ⟨hb, by rw [hb]; rfl, ?_⟩
  rw [hb]
  have hdropc : (enc c).drop 4 = [] := by
    have hdl := List.drop_length (enc c)
    rwa [henc c] at hdl
  have hparse : parseNodeFast ((u32le v.nx ++ u32le v.ny ++ u32le v.nz ++
      blockBytes enc (.leaf c)).drop 12) = some ((1, 1, 0), []) := by
    rw [header_append_drop]
    show parseNodeFast (0 :: enc c) = some ((1, 1, 0), [])
    rw [parseNodeFast_cons_zero, if_pos (by simp [henc]), hdropc]
  have hlen : ¬ ((u32le v.nx ++ u32le v.ny ++ u32le v.nz ++
      blockBytes enc (.leaf c)).length < 12) := by
    rw [header_append_length]; omega
  obtain ⟨r1, r2, r3⟩ :=
    readU32_header v.nx v.ny v.nz (blockBytes enc (.leaf c)) b1 b2 b3
  unfold countOctreePoints
  simp only [if_neg hlen, hparse, r1, r2, r3]
  norm_num

theorem c7_uniform_volume_witness :
    ((∀ q, (encZero q).length = 4) ∧ (∀ x y z : Nat,
        Volume.val ⟨4, 4, 4, fun _ _ _ => (7:ℚ)⟩ x y z = 7)) ∧
    countOctreePoints (u32le 4 ++ u32le 4 ++ u32le 4 ++
        blockBytes encZero (buildBlock ⟨4, 4, 4, fun _ _ _ => (7:ℚ)⟩ 0 0 0 4 4 4)) =
      some (64, 1, 1, 0, 64) := by
  have h := (c7_uniform_volume encZero (fun _ => rfl) ⟨4, 4, 4, fun _ _ _ => (7:ℚ)⟩ 7
    (fun _ _ _ => rfl) (by decide) (by decide) (by decide)
    (by decide) (by decide) (by decide)).2.2
  exact ⟨⟨fun _ => rfl, fun _ _ _ => rfl⟩, by simpa using h⟩

theorem blockDepth_le (v : Volume) : ∀ k mx my mz sx sy sz, sx + sy + sz ≤ k →
    blockDepth (buildBlock v mx my mz sx sy sz) ≤
      Nat.clog 2 (max sx (max sy sz)) + 1 := by
  intro k
  induction k using Nat.strong_induction_on with
  | _ k IH =>
    intro mx my mz sx sy sz hk
    by_cases hA : sx ≤ 1 ∧ sy ≤ 1 ∧ sz ≤ 1
    · rw [buildBlock.eq_def]; simp only [if_pos hA, blockDepth]; omega
    · by_cases hB : regionVals v mx my mz sx sy sz = []
      · rw [buildBlock.eq_def]; simp only [if_neg hA, if_pos hB, blockDepth]; omega
      · by_cases hC : listMax (regionVals v mx my mz sx sy sz) -
            listMin (regionVals v mx my mz sx sy sz) ≤ 50
        · rw [buildBlock.eq_def]
          simp only [if_neg hA, if_neg hB, if_pos hC, blockDepth]; omega
        · by_cases hD : min sx (min sy sz) < 2
          · rw [buildBlock.eq_def]
            simp only [if_neg hA, if_neg hB, if_neg hC, dif_pos hD, blockDepth]
            omega
          · have hsx : 2 ≤ sx := by omega
            have hsy : 2 ≤ sy := by omega
            have hsz : 2 ≤ sz := by omega
            set M := max sx (max sy sz) with hM
            have hM2 : 2 ≤ M := by omega
            have hrec : Nat.clog 2 M = Nat.clog 2 ((M + 1) / 2) + 1 := by
              have hcl := @Nat.clog_of_two_le 2 M (by norm_num) hM2
              have he : (M + 2 - 1) / 2 = (M + 1) / 2 := by omega
              rw [he] at hcl
              exact hcl
            have hmono : ∀ a b c2 : Nat, a ≤ (M+1)/2 → b ≤ (M+1)/2 → c2 ≤ (M+1)/2 →
                Nat.clog 2 (max a (max b c2)) + 1 ≤ Nat.clog 2 M := by
              intro a b c2 ha hb hc2
              have hle : max a (max b c2) ≤ (M + 1) / 2 := by omega
              have hmr := Nat.clog_mono_right 2 hle
              omega
            have j0 := le_trans
              (IH (k-1) (by omega) mx my mz ((sx+1)/2) ((sy+1)/2) ((sz+1)/2) (by omega))
              (hmono _ _ _ (by omega) (by omega) (by omega))
            have j1 := le_trans
              (IH (k-1) (by omega) mx my (mz + (sz+1)/2) ((sx+1)/2) ((sy+1)/2) (sz - (sz+1)/2) (by omega))
              (hmono _ _ _ (by omega) (by omega) (by omega))
            have j2 := le_trans
              (IH (k-1) (by omega) mx (my + (sy+1)/2) mz ((sx+1)/2) (sy - (sy+1)/2) ((sz+1)/2) (by omega))
              (hmono _ _ _ (by omega) (by omega) (by omega))
            have j3 := le_trans
              (IH (k-1) (by omega) mx (my + (sy+1)/2) (mz + (sz+1)/2) ((sx+1)/2) (sy - (sy+1)/2) (sz - (sz+1)/2) (by omega))
              (hmono _ _ _ (by omega) (by omega) (by omega))
            have j4 := le_trans
              (IH (k-1) (by omega) (mx + (sx+1)/2) my mz (sx - (sx+1)/2) ((sy+1)/2) ((sz+1)/2) (by omega))
              (hmono _ _ _ (by omega) (by omega) (by omega))
            have j5 := le_trans
              (IH (k-1) (by omega) (mx + (sx+1)/2) my (mz + (sz+1)/2) (sx - (sx+1)/2) ((sy+1)/2) (sz - (sz+1)/2) (by omega))
              (hmono _ _ _ (by omega) (by omega) (by omega))
            have j6 := le_trans
              (IH (k-1) (by omega) (mx + (sx+1)/2) (my + (sy+1)/2) mz (sx - (sx+1)/2) (sy - (sy+1)/2) ((sz+1)/2) (by omega))
              (hmono _ _ _ (by omega) (by omega) (by omega))
            have j7 := le_trans
              (IH (k-1) (by omega) (mx + (sx+1)/2) (my + (sy+1)/2) (mz + (sz+1)/2) (sx - (sx+1)/2) (sy - (sy+1)/2) (sz - (sz+1)/2) (by omega))
              (hmono _ _ _ (by omega) (by omega) (by omega))
            rw [buildBlock.eq_def]
            simp only [if_neg hA, if_neg hB, if_neg hC, dif_neg hD, blockDepth]
            rw [Nat.add_comm 1]
            apply Nat.add_le_add_right
            simp only [Nat.max_le]
            omega

theorem pointDepth_le (v : Volume) : ∀ k mx my mz sx sy sz maxD cur, sx + sy + sz ≤ k →
    pointDepth (buildPoint v mx my mz sx sy sz maxD cur) ≤ maxD - cur := by
  intro k
  induction k using Nat.strong_induction_on with
  | _ k IH =>
    intro mx my mz sx sy sz maxD cur hk
    by_cases h1 : cur ≥ maxD ∨ min sx (min sy sz) ≤ 1
    · rw [buildPoint.eq_def]; simp only [if_pos h1, pointDepth]; omega
    · by_cases h2 : regionVals v mx my mz sx sy sz = []
      · rw [buildPoint.eq_def]; simp only [if_neg h1, if_pos h2, pointDepth]; omega
      · by_cases h3 : listMax (regionVals v mx my mz sx sy sz) -
            listMin (regionVals v mx my mz sx sy sz) ≤ 50
        · rw [buildPoint.eq_def]
          simp only [if_neg h1, if_neg h2, if_pos h3, pointDepth]; omega
        · by_cases h4 : min sx (min sy sz) < 2
          · rw [buildPoint.eq_def]
            simp only [if_neg h1, if_neg h2, if_neg h3, dif_pos h4, pointDepth]
            omega
          · have hcur : cur < maxD ∧ 1 < min sx (min sy sz) := by
              push_neg at h1; exact h1
            have i0 := IH (k-1) (by omega) mx my mz ((sx+1)/2) ((sy+1)/2) ((sz+1)/2) maxD (cur+1) (by omega)
            have i1 := IH (k-1) (by omega) (mx + (sx+1)/2) my mz (sx - (sx+1)/2) ((sy+1)/2) ((sz+1)/2) maxD (cur+1) (by omega)
            have i2 := IH (k-1) (by omega) mx (my + (sy+1)/2) mz ((sx+1)/2) (sy - (sy+1)/2) ((sz+1)/2) maxD (cur+1) (by omega)
            have i3 := IH (k-1) (by omega) (mx + (sx+1)/2) (my + (sy+1)/2) mz (sx - (sx+1)/2) (sy - (sy+1)/2) ((sz+1)/2) maxD (cur+1) (by omega)
            have i4 := IH (k-1) (by omega) mx my (mz + (sz+1)/2) ((sx+1)/2) ((sy+1)/2) (sz - (sz+1)/2) maxD (cur+1) (by omega)
            have i5 := IH (k-1) (by omega) (mx + (sx+1)/2) my (mz + (sz+1)/2) (sx - (sx+1)/2) ((sy+1)/2) (sz - (sz+1)/2) maxD (cur+1) (by omega)
            have i6 := IH (k-1) (by omega) mx (my + (sy+1)/2) (mz + (sz+1)/2) ((sx+1)/2) (sy - (sy+1)/2) (sz - (sz+1)/2) maxD (cur+1) (by omega)
            have i7 := IH (k-1) (by omega) (mx + (sx+1)/2) (my + (sy+1)/2) (mz + (sz+1)/2) (sx - (sx+1)/2) (sy - (sy+1)/2) (sz - (sz+1)/2) maxD (cur+1) (by omega)
            rw [buildPoint.eq_def]
            simp only [if_neg h1, if_neg h2, if_neg h3, dif_neg h4, pointDepth]
            have hD1 : maxD - (cur + 1) + 1 ≤ maxD - cur := by omega
            refine le_trans ?_ hD1
            rw [Nat.add_comm 1]
            apply Nat.add_le_add_right
            simp only [Nat.max_le]
            omega

/-- C8: both builders are total functions of their inputs (they are defined
by well-founded recursion on shrinking regions), and for every volume with
positive dimensions the block-value tree depth is at most
`ceil(log2(max(nx,ny,nz))) + 1` while the point-sample tree depth is at
most the `max_depth` parameter. -/
theorem c8_termination_depth (v : Volume) (maxD : Nat)
    (_h1 : 1 ≤ v.nx) (_h2 : 1 ≤ v.ny) (_h3 : 1 ≤ v.nz) :
    blockDepth (buildBlock v 0 0 0 v.nx v.ny v.nz) ≤
      Nat.clog 2 (max v.nx (max v.ny v.nz)) + 1 ∧
    pointDepth (buildPoint v 0 0 0 v.nx v.ny v.nz maxD 0) ≤ maxD := by
  constructor
  · exact blockDepth_le v (v.nx + v.ny + v.nz) 0 0 0 v.nx v.ny v.nz le_rfl
  · have hp := pointDepth_le v (v.nx + v.ny + v.nz) 0 0 0 v.nx v.ny v.nz maxD 0 le_rfl
    simpa using hp

theorem c8_termination_depth_witness :
    ((1:Nat) ≤ 2 ∧ (1:Nat) ≤ 2 ∧ (1:Nat) ≤ 2) ∧
    (blockDepth (buildBlock ⟨2, 2, 2, fun _ _ _ => (0:ℚ)⟩ 0 0 0 2 2 2) ≤
      Nat.clog 2 (max 2 (max 2 2)) + 1 ∧
    pointDepth (buildPoint ⟨2, 2, 2, fun _ _ _ => (0:ℚ)⟩ 0 0 0 2 2 2 3 0) ≤ 3) :=
  ⟨⟨by decide, by decide, by decide⟩,
    c8_termination_depth ⟨2, 2, 2, fun _ _ _ => (0:ℚ)⟩ 3 (by decide) (by decide) (by decide)⟩

/-- C9 (amended): the only pre-build check in the generator main is the
reshape of the file data — an invocation whose file length disagrees with
`nx*ny*nz` fails before any octree node is built or any byte is written;
there is no validation of the fluctuation threshold (it is the hard-coded
constant 50) and zero dimensions are not rejected. -/
theorem c9_reshape_fails_fast (enc : ℚ → List Nat) (nx ny nz : Nat)
    (fileData : List ℚ) (h : fileData.length ≠ nx * ny * nz) :
    generateOctreeMain enc nx ny nz fileData = none := by
  unfold generateOctreeMain
  rw [if_neg h]

theorem c9_reshape_fails_fast_witness :
    ([(5:ℚ)].length ≠ 2 * 2 * 2) ∧
    generateOctreeMain encZero 2 2 2 [(5:ℚ)] = none :=
  ⟨by decide, c9_reshape_fails_fast encZero 2 2 2 [(5:ℚ)] (by decide)⟩

/-- C9 counterexample: an invocation with non-positive (zero) volume
dimensions and a matching empty file is not rejected: the build proceeds,
constructs a zero-valued leaf for the empty region, and writes the 12-byte
header followed by the leaf tag and payload, contradicting the claim that
such invocations fail before any recursion begins with nothing written. -/
theorem c9_zero_dims_not_rejected :
    generateOctreeMain encZero 0 0 0 [] =
      some [0, 0, 0, 0, 0, 0, 0, 0, 0, 0, 0, 0, 0, 0, 0, 0, 0] := by
  simp [generateOctreeMain, u32le, buildBlock, regionVals, blockBytes, encZero]

end Oct
